import Mathlib

/-!
Shallow embedding of the result-normalization pipeline of the
where-to-buy-ai-agent repository (src/utils/priceUtils.js,
attributeUtils.js, brandUtils.js, resultUtils.js), together with
theorems settling the frozen claims about it.

Modelling conventions:
* JavaScript numbers are modelled by `JSNum`: either `nan` or an exact
  rational.  Floating-point rounding and overflow to `Infinity` are not
  modelled; `Number.MAX_VALUE` is the exact rational `jsMaxValue`.
* Strings are Lean strings; every string operation is defined through the
  underlying character list.  Case folding is ASCII, as the inputs of the
  pipeline are ASCII titles and queries.
* The regular expressions of the source are specialised to executable
  leftmost-match scanners.  For these patterns the character classes of
  adjacent parts are disjoint, so greedy maximal-munch scanning agrees
  with the backtracking semantics of JavaScript regexes.
* `Array.prototype.sort` is modelled by a stable insertion sort over the
  comparator translated from the source.
-/

set_option maxRecDepth 8000

namespace WhereToBuy

/-- JavaScript number: NaN or an exact rational. -/
inductive JSNum where
  | nan : JSNum
  | num : ℚ → JSNum
deriving DecidableEq, Repr

namespace JSNum

def add : JSNum → JSNum → JSNum
  | num a, num b => num (a + b)
  | _, _ => nan

def sub : JSNum → JSNum → JSNum
  | num a, num b => num (a - b)
  | _, _ => nan

def mul : JSNum → JSNum → JSNum
  | num a, num b => num (a * b)
  | _, _ => nan

/-- Division; division by zero is not reached by the embedded code
(it is guarded by `totalWeight > 0`). -/
def div : JSNum → JSNum → JSNum
  | num a, num b => if b = 0 then nan else num (a / b)
  | _, _ => nan

/-- JavaScript truthiness of a number: `0` and `NaN` are falsy. -/
def truthy : JSNum → Bool
  | nan => false
  | num q => decide (q ≠ 0)

/-- The JavaScript comparison `x > 0` (`false` on NaN). -/
def posB : JSNum → Bool
  | nan => false
  | num q => decide (0 < q)

/-- The JavaScript comparison `x < 0` (`false` on NaN). -/
def negB : JSNum → Bool
  | nan => false
  | num q => decide (q < 0)

end JSNum

/-- `Number.MAX_VALUE` as an exact rational (the natural-number value
`(2 ^ 53 - 1) * 2 ^ 971`, cast to the rationals). -/
def jsMaxValue : ℚ := ((2 ^ 53 - 1) * 2 ^ 971 : ℕ)

/-! ## Character and string helpers -/

/-- Whitespace class of the `\s` regex escape (ASCII part). -/
def isWsChar (c : Char) : Bool :=
  c == ' ' || c == '\t' || c == '\n' || c == '\r' || c == '\x0b' || c == '\x0c'

/-- ASCII lower-casing of one character, as done by `toLowerCase`. -/
def jsLowerChar : Char → Char
  | 'A' => 'a' | 'B' => 'b' | 'C' => 'c' | 'D' => 'd' | 'E' => 'e'
  | 'F' => 'f' | 'G' => 'g' | 'H' => 'h' | 'I' => 'i' | 'J' => 'j'
  | 'K' => 'k' | 'L' => 'l' | 'M' => 'm' | 'N' => 'n' | 'O' => 'o'
  | 'P' => 'p' | 'Q' => 'q' | 'R' => 'r' | 'S' => 's' | 'T' => 't'
  | 'U' => 'u' | 'V' => 'v' | 'W' => 'w' | 'X' => 'x' | 'Y' => 'y'
  | 'Z' => 'z' | c => c

/-- ASCII upper-casing of one character, as done by `toUpperCase`. -/
def jsUpperChar : Char → Char
  | 'a' => 'A' | 'b' => 'B' | 'c' => 'C' | 'd' => 'D' | 'e' => 'E'
  | 'f' => 'F' | 'g' => 'G' | 'h' => 'H' | 'i' => 'I' | 'j' => 'J'
  | 'k' => 'K' | 'l' => 'L' | 'm' => 'M' | 'n' => 'N' | 'o' => 'O'
  | 'p' => 'P' | 'q' => 'Q' | 'r' => 'R' | 's' => 'S' | 't' => 'T'
  | 'u' => 'U' | 'v' => 'V' | 'w' => 'W' | 'x' => 'X' | 'y' => 'Y'
  | 'z' => 'Z' | c => c

/-- `toLowerCase` on a string. -/
def jsToLower (s : String) : String := String.mk (s.data.map jsLowerChar)

/-- Does `sub` occur at the head of `l` (case-sensitive)?  Used to model
the case-sensitive `String.prototype.includes` and `indexOf`. -/
def leadsWith : List Char → List Char → Bool
  | [], _ => true
  | _ :: _, [] => false
  | a :: as, b :: bs => a == b && leadsWith as bs

/-- Case-insensitive variant of `leadsWith` (ASCII folding). -/
def ciLeads : List Char → List Char → Bool
  | [], _ => true
  | _ :: _, [] => false
  | a :: as, b :: bs => jsLowerChar a == jsLowerChar b && ciLeads as bs

/-- Index of the first occurrence of `sub` in `hay`, if any. -/
def firstIdxFrom : List Char → List Char → Nat → Option Nat
  | hay, sub, i =>
    if leadsWith sub hay then some i
    else
      match hay with
      | [] => none
      | _ :: t => firstIdxFrom t sub (i + 1)

/-- `hay.includes(sub)` of JavaScript (case-sensitive substring test). -/
def jsIncludes (hay sub : String) : Bool :=
  (firstIdxFrom hay.data sub.data 0).isSome

/-- `hay.indexOf(sub)` of JavaScript (`-1` when absent). -/
def jsIndexOf (hay sub : String) : Int :=
  match firstIdxFrom hay.data sub.data 0 with
  | some i => (i : Int)
  | none => -1

/-- One step of the whitespace split: the flag records whether the
previous character was part of a separator run. -/
def splitStep (c : Char) (acc : List (List Char) × Bool) : List (List Char) × Bool :=
  if isWsChar c then
    (if acc.2 then acc.1 else [] :: acc.1, true)
  else
    (match acc.1 with
     | [] => [[c]]
     | t :: ts => (c :: t) :: ts, false)

/-- Split on maximal whitespace runs, as `split(/\s+/)` does: a leading
or trailing separator run produces an empty token at that end. -/
def splitWsFold (l : List Char) : List (List Char) :=
  (l.foldr splitStep ([[]], false)).1

/-- `split(/\s+/)` on a string. -/
def jsSplitWs (s : String) : List String :=
  (splitWsFold s.data).map String.mk

/-- `trim()` of JavaScript. -/
def jsTrim (s : String) : String :=
  String.mk (((s.data.dropWhile isWsChar).reverse.dropWhile isWsChar).reverse)

/-- Digit list to natural number. -/
def digitsToNat (ds : List Char) : Nat :=
  ds.foldl (fun a c => a * 10 + (c.toNat - 48)) 0

def isDigitDot (c : Char) : Bool := c.isDigit || c == '.'

def isDigitComma (c : Char) : Bool := c.isDigit || c == ','

/-- Core of `parseFloat` on an unsigned decimal token: leading digits,
an optional dot, trailing digits; `NaN` when no digit is found. -/
def jsParseFloatCore (l : List Char) : JSNum :=
  let ip := l.takeWhile Char.isDigit
  let r1 := l.dropWhile Char.isDigit
  match r1 with
  | '.' :: r2 =>
      let fp := r2.takeWhile Char.isDigit
      if ip.isEmpty && fp.isEmpty then JSNum.nan
      else JSNum.num ((digitsToNat ip : ℚ) + (digitsToNat fp : ℚ) / (10 ^ fp.length : ℚ))
  | _ => if ip.isEmpty then JSNum.nan else JSNum.num (digitsToNat ip)

/-- `parseFloat` of JavaScript, restricted to the decimal tokens the
pipeline feeds it (no exponents or `Infinity`). -/
def jsParseFloat (s : String) : JSNum :=
  let l := s.data.dropWhile isWsChar
  match l with
  | '-' :: r =>
      (match jsParseFloatCore r with
       | JSNum.num q => JSNum.num (-q)
       | n => n)
  | '+' :: r => jsParseFloatCore r
  | _ => jsParseFloatCore l

/-- `parseInt` on an all-digit capture group. -/
def parseIntDigits (s : String) : Nat := digitsToNat s.data

/-- Render a natural number in decimal (fuel-based, kernel-reducible). -/
def natDigitsAux : Nat → Nat → List Char
  | 0, _ => []
  | fuel + 1, n =>
      if n = 0 then []
      else natDigitsAux fuel (n / 10) ++ [Char.ofNat (48 + n % 10)]

def natToStr (n : Nat) : String :=
  if n = 0 then "0" else String.mk (natDigitsAux (n + 1) n)

def twoDigits (r : Nat) : String :=
  (if r < 10 then "0" else "") ++ natToStr r

/-- Floor of a rational, computed directly on its fields (the
denominator of a `Rat` is positive, so Euclidean division floors). -/
def ratFloor (q : ℚ) : Int := q.num.ediv (q.den : Int)

/-- `toFixed(2)`: nearest multiple of 1/100, ties towards the larger
value, rendered with exactly two decimals; `"NaN"` on NaN. -/
def jsToFixed2 : JSNum → String
  | JSNum.nan => "NaN"
  | JSNum.num q =>
      let m : Int := ratFloor (q * 100 + 1 / 2)
      (if m < 0 then "-" else "") ++
        natToStr (m.natAbs / 100) ++ "." ++ twoDigits (m.natAbs % 100)

/-! ## Regex models (src/utils/attributeUtils.js, priceUtils.js)

Each JavaScript pattern of the source is specialised to a scanner that
tries the pattern at every position from the left and, at a position,
consumes greedily.  For these patterns the adjacent character classes
are disjoint, so this agrees with backtracking regex semantics. -/

/-- A weight-pattern match object: `match[0]`, `match[1]`, `match[2]`. -/
structure WMatch where
  full : String
  g1 : String
  g2 : String
deriving DecidableEq, Repr

/-- A pack-pattern match object: `match[0]`, `match[1]`. -/
structure PMatch where
  full : String
  g1 : String
deriving DecidableEq, Repr

/-- Unit alternation `(kg|g|gm|gram|ml|l|liter|litre)`, in source order
(JavaScript alternation is ordered, first alternative wins). -/
def unitAlts : List String := ["kg", "g", "gm", "gram", "ml", "l", "liter", "litre"]

/-- Unit alternation `(kg|g|gm|gram|ml|l)` of the no-space pattern. -/
def unitAltsBare : List String := ["kg", "g", "gm", "gram", "ml", "l"]

/-- First alternative that matches case-insensitively at the head of
`l`; returns the consumed original-case text. -/
def matchAltCi (alts : List String) (l : List Char) : Option (List Char) :=
  match alts with
  | [] => none
  | a :: as =>
      if ciLeads a.data l then some (l.take a.data.length) else matchAltCi as l

/-- Generic leftmost scan: try `f` at every suffix, left to right. -/
def scanMatch (f : List Char → Option α) : List Char → Option α
  | [] => f []
  | c :: r =>
      match f (c :: r) with
      | some m => some m
      | none => scanMatch f r

/-- Pattern `([0-9.]+)\s*(kg|g|gm|gram|ml|l|liter|litre)` at one position. -/
def tryWeightP0 (l : List Char) : Option WMatch :=
  let nm := l.takeWhile isDigitDot
  if nm.isEmpty then none
  else
    let r1 := l.dropWhile isDigitDot
    let sp := r1.takeWhile isWsChar
    let r2 := r1.dropWhile isWsChar
    match matchAltCi unitAlts r2 with
    | some u => some ⟨String.mk (nm ++ sp ++ u), String.mk nm, String.mk u⟩
    | none => none

/-- Pattern `([0-9.]+)\s*-?\s*(kg|g|gm|gram|ml|l|liter|litre)` at one position. -/
def tryWeightP1 (l : List Char) : Option WMatch :=
  let nm := l.takeWhile isDigitDot
  if nm.isEmpty then none
  else
    let r1 := l.dropWhile isDigitDot
    let sp1 := r1.takeWhile isWsChar
    let r2 := r1.dropWhile isWsChar
    let hy : List Char := match r2 with | '-' :: _ => ['-'] | _ => []
    let r3 : List Char := match r2 with | '-' :: t => t | _ => r2
    let sp2 := r3.takeWhile isWsChar
    let r4 := r3.dropWhile isWsChar
    match matchAltCi unitAlts r4 with
    | some u => some ⟨String.mk (nm ++ sp1 ++ hy ++ sp2 ++ u), String.mk nm, String.mk u⟩
    | none => none

/-- Pattern `([0-9.]+)(kg|g|gm|gram|ml|l)` at one position. -/
def tryWeightP2 (l : List Char) : Option WMatch :=
  let nm := l.takeWhile isDigitDot
  if nm.isEmpty then none
  else
    let r1 := l.dropWhile isDigitDot
    match matchAltCi unitAltsBare r1 with
    | some u => some ⟨String.mk (nm ++ u), String.mk nm, String.mk u⟩
    | none => none

/-- Leftmost match of the first weight pattern. -/
def matchWeightP0 (t : List Char) : Option WMatch := scanMatch tryWeightP0 t

/-- Leftmost match of the second (hyphenated) weight pattern. -/
def matchWeightP1 (t : List Char) : Option WMatch := scanMatch tryWeightP1 t

/-- Leftmost match of the third (no-space) weight pattern. -/
def matchWeightP2 (t : List Char) : Option WMatch := scanMatch tryWeightP2 t

/-- The ordered weight-pattern list of the source. -/
def weightPatterns : List (List Char → Option WMatch) :=
  [matchWeightP0, matchWeightP1, matchWeightP2]

/-- First pattern of an ordered list that matches, first match wins. -/
def firstPattern (ps : List (List Char → Option WMatch)) (t : List Char) : Option WMatch :=
  match ps with
  | [] => none
  | p :: rest =>
      match p t with
      | some m => some m
      | none => firstPattern rest t

/-- `extractWeight` of attributeUtils.js. -/
def extractWeight (title : String) : Option WMatch :=
  if title = "" then none
  else firstPattern weightPatterns title.data

/-- Case-insensitive literal at the head; returns (consumed, rest). -/
def ciEat (w : String) (l : List Char) : Option (List Char × List Char) :=
  if ciLeads w.data l then some (l.take w.data.length, l.drop w.data.length)
  else none

/-- Pattern `pack\s*of\s*([0-9]+)` at one position. -/
def tryPack1 (l : List Char) : Option PMatch := do
  let (w1, r1) ← ciEat "pack" l
  let s1 := r1.takeWhile isWsChar
  let r2 := r1.dropWhile isWsChar
  let (w2, r3) ← ciEat "of" r2
  let s2 := r3.takeWhile isWsChar
  let r4 := r3.dropWhile isWsChar
  let ds := r4.takeWhile Char.isDigit
  if ds.isEmpty then none
  else some ⟨String.mk (w1 ++ s1 ++ w2 ++ s2 ++ ds), String.mk ds⟩

/-- Pattern `([0-9]+)\s*x\s*[0-9.]+` at one position. -/
def tryPack2 (l : List Char) : Option PMatch :=
  let ds := l.takeWhile Char.isDigit
  if ds.isEmpty then none
  else
    let r1 := l.dropWhile Char.isDigit
    let s1 := r1.takeWhile isWsChar
    let r2 := r1.dropWhile isWsChar
    match ciEat "x" r2 with
    | none => none
    | some (wx, r3) =>
        let s2 := r3.takeWhile isWsChar
        let r4 := r3.dropWhile isWsChar
        let amt := r4.takeWhile isDigitDot
        if amt.isEmpty then none
        else some ⟨String.mk (ds ++ s1 ++ wx ++ s2 ++ amt), String.mk ds⟩

/-- Pattern `([0-9]+)\s*<word>` at one position (for pack, count, pc). -/
def tryNumThenWord (w : String) (l : List Char) : Option PMatch :=
  let ds := l.takeWhile Char.isDigit
  if ds.isEmpty then none
  else
    let r1 := l.dropWhile Char.isDigit
    let s1 := r1.takeWhile isWsChar
    let r2 := r1.dropWhile isWsChar
    match ciEat w r2 with
    | none => none
    | some (ww, _) => some ⟨String.mk (ds ++ s1 ++ ww), String.mk ds⟩

/-- Pattern `set\s*of\s*([0-9]+)` at one position. -/
def tryPack6 (l : List Char) : Option PMatch := do
  let (w1, r1) ← ciEat "set" l
  let s1 := r1.takeWhile isWsChar
  let r2 := r1.dropWhile isWsChar
  let (w2, r3) ← ciEat "of" r2
  let s2 := r3.takeWhile isWsChar
  let r4 := r3.dropWhile isWsChar
  let ds := r4.takeWhile Char.isDigit
  if ds.isEmpty then none
  else some ⟨String.mk (w1 ++ s1 ++ w2 ++ s2 ++ ds), String.mk ds⟩

/-- The ordered pack-pattern list of the source. -/
def packPatterns : List (List Char → Option PMatch) :=
  [scanMatch tryPack1, scanMatch tryPack2,
   scanMatch (tryNumThenWord "pack"), scanMatch (tryNumThenWord "count"),
   scanMatch (tryNumThenWord "pc"), scanMatch tryPack6]

def firstPackPattern (ps : List (List Char → Option PMatch)) (t : List Char) : Option PMatch :=
  match ps with
  | [] => none
  | p :: rest =>
      match p t with
      | some m => some m
      | none => firstPackPattern rest t

/-- `extractPackSize` of attributeUtils.js. -/
def extractPackSize (title : String) : Option PMatch :=
  if title = "" then none
  else firstPackPattern packPatterns title.data

/-- One leftmost match of `/[\d,]+\.?\d*/` at one position. -/
def tryPriceRun (l : List Char) : Option (List Char) :=
  let run := l.takeWhile isDigitComma
  if run.isEmpty then none
  else
    let r1 := l.dropWhile isDigitComma
    match r1 with
    | '.' :: r2 => some (run ++ '.' :: r2.takeWhile Char.isDigit)
    | _ => some run

/-- First `/[\d,]+\.?\d*/` match of a price string, if any. -/
def priceRunOf (s : String) : Option (List Char) := scanMatch tryPriceRun s.data

/-- Does the price string (possibly absent) have a numeric-run match? -/
def priceHasRun : Option String → Bool
  | none => false
  | some s => (priceRunOf s).isSome

/-- `extractNumericPrice` of priceUtils.js: first `[\d,]+\.?\d*` run,
commas stripped, `parseFloat`; `Number.MAX_VALUE` when absent. -/
def extractNumericPrice : Option String → JSNum
  | none => JSNum.num jsMaxValue
  | some s =>
      if s = "" then JSNum.num jsMaxValue
      else
        match priceRunOf s with
        | some run => jsParseFloat (String.mk (run.filter (fun c => c ≠ ',')))
        | none => JSNum.num jsMaxValue

/-! ## attributeUtils.js: features, weight economics, size comparison -/

inductive FeatureVal where
  | single : String → FeatureVal
  | multi : List String → FeatureVal
deriving DecidableEq, Repr

/-- The feature-keyword table, in source (insertion) order. -/
def featureKeywords : List (String × FeatureVal) :=
  [("original", FeatureVal.single "original"),
   ("fresh", FeatureVal.single "fresh"),
   ("cool", FeatureVal.single "cooling"),
   ("icy", FeatureVal.single "cooling"),
   ("lemon", FeatureVal.single "lemon"),
   ("germ protection", FeatureVal.multi ["germ", "protection"]),
   ("antibacterial", FeatureVal.single "antibacterial"),
   ("anti-bacterial", FeatureVal.single "antibacterial"),
   ("natural", FeatureVal.single "natural"),
   ("organic", FeatureVal.single "organic"),
   ("fragrance", FeatureVal.single "fragrance"),
   ("scented", FeatureVal.single "scented")]

/-- `extractFeatures` of attributeUtils.js. -/
def extractFeatures (title : String) : List String :=
  if title = "" then []
  else
    let lowerTitle := jsToLower title
    featureKeywords.foldl
      (fun fs kv =>
        match kv.2 with
        | FeatureVal.multi ws =>
            if ws.all (fun w => jsIncludes lowerTitle w) then fs ++ [kv.1] else fs
        | FeatureVal.single v =>
            if jsIncludes lowerTitle v then fs ++ [kv.1] else fs)
      []

/-- Output record of `calculateWeightAndPrice`. -/
structure WeightPriceInfo where
  individualWeight : JSNum
  totalWeight : JSNum
  weightUnit : String
  packSize : Option Nat
  unitPrice : JSNum
  unitPriceFormatted : Option String
deriving DecidableEq, Repr

/-- The currency prefix of `unitPriceFormatted` exactly as the bytes of
attributeUtils.js line 141 spell it (a mojibake of the rupee sign). -/
def currencyMojibake : String := "â‚¹"

/-- `calculateWeightAndPrice` of attributeUtils.js. -/
def calculateWeightAndPrice (weightMatch : Option WMatch) (packMatch : Option PMatch)
    (priceValue : JSNum) : WeightPriceInfo :=
  let st : JSNum × JSNum × String :=
    match weightMatch with
    | none => (JSNum.num 0, JSNum.num 0, "")
    | some wm =>
        let weightValue := jsParseFloat wm.g1
        let wu := jsToLower wm.g2
        let iw_unit : JSNum × String :=
          if wu = "kg" then (weightValue.mul (JSNum.num 1000), "g")
          else if wu = "l" ∨ wu = "liter" ∨ wu = "litre" then
            (weightValue.mul (JSNum.num 1000), "ml")
          else (weightValue, wu)
        let tw : JSNum :=
          match packMatch with
          | some pm => iw_unit.1.mul (JSNum.num (parseIntDigits pm.g1 : ℚ))
          | none => iw_unit.1
        (iw_unit.1, tw, iw_unit.2)
  let individualWeight := st.1
  let totalWeight := st.2.1
  let weightUnit := st.2.2
  let unitPrice : JSNum :=
    if totalWeight.posB then (priceValue.div totalWeight).mul (JSNum.num 100)
    else JSNum.num 0
  let unitPriceFormatted : Option String :=
    if totalWeight.posB then
      some (currencyMojibake ++ jsToFixed2 unitPrice ++ "/" ++
        (if weightUnit = "ml" then "100ml" else "100g"))
    else none
  { individualWeight := individualWeight
    totalWeight := totalWeight
    weightUnit := weightUnit
    packSize := packMatch.map (fun pm => parseIntDigits pm.g1)
    unitPrice := unitPrice
    unitPriceFormatted := unitPriceFormatted }

/-- Remove the first maximal run of characters satisfying `p`
(`replace(/[...]+/, '')` without the global flag). -/
def removeFirstRun (p : Char → Bool) : List Char → List Char
  | [] => []
  | c :: rest => if p c then rest.dropWhile p else c :: removeFirstRun p rest

/-- First maximal run of characters satisfying `p` (`match(/[...]+/)`). -/
def firstRunOf (p : Char → Bool) : List Char → Option (List Char)
  | [] => none
  | c :: rest => if p c then some (c :: rest.takeWhile p) else firstRunOf p rest

def isNumDotWs (c : Char) : Bool := c.isDigit || c == '.' || isWsChar c

/-- The volume-unit list of compareSizes. -/
def volumeUnits : List String := ["l", "liter", "litre", "ml"]

/-- Trimmed unit text of the search size, as compareSizes derives it. -/
def searchUnitOf (s : String) : String :=
  jsTrim (String.mk (removeFirstRun isNumDotWs s.data))

/-- `Math.abs(a - b) < 0.1` on JavaScript numbers (`false` when NaN). -/
def absLtTenth : JSNum → Bool
  | JSNum.nan => false
  | JSNum.num q => decide (|q| < 1 / 10)

/-- `compareSizes` of attributeUtils.js.  A `TypeError` thrown when a
numeric token is absent is caught by the source and turned into
`false`; the model returns `false` directly on those paths. -/
def compareSizes (weightMatch : Option WMatch) (searchSize : Option String) : Bool :=
  match weightMatch, searchSize with
  | some wm, some ss =>
      if ss = "" then false
      else
        let productSizeRaw := jsToLower wm.full
        match firstRunOf isDigitDot ss.data, firstRunOf isDigitDot productSizeRaw.data with
        | some st, some pt =>
            let searchSizeValue := jsParseFloat (String.mk st)
            let productSizeValue := jsParseFloat (String.mk pt)
            let searchUnit := searchUnitOf ss
            let productUnit := searchUnitOf productSizeRaw
            let isVolumeSearch := volumeUnits.any (fun u => jsIncludes searchUnit u)
            let isVolumeProduct := volumeUnits.any (fun u => jsIncludes productUnit u)
            let compatibleUnits :=
              (isVolumeSearch && isVolumeProduct) || (!isVolumeSearch && !isVolumeProduct)
            compatibleUnits && absLtTenth (searchSizeValue.sub productSizeValue)
        | _, _ => false
  | _, _ => false

/-! ## priceUtils.js: formatPrice -/

/-- A JavaScript string-or-number value, as `formatPrice` accepts. -/
inductive JSVal where
  | vstr : String → JSVal
  | vnum : JSNum → JSVal
deriving DecidableEq, Repr

/-- JavaScript falsiness of a string-or-number value. -/
def jsValFalsy : JSVal → Bool
  | JSVal.vstr s => s = ""
  | JSVal.vnum JSNum.nan => true
  | JSVal.vnum (JSNum.num q) => q = 0

/-- `formatPrice` of priceUtils.js (this one uses the genuine rupee
sign in its literals). -/
def formatPrice (price : JSVal) : String :=
  if jsValFalsy price then "₹0.00"
  else
    match price with
    | JSVal.vstr s =>
        if jsIncludes s "₹" then s
        else "₹" ++ jsToFixed2 (jsParseFloat s)
    | JSVal.vnum n => "₹" ++ jsToFixed2 n

/-! ## brandUtils.js -/

/-- The generic-word exclusion list of brandUtils.js. -/
def genericWords : List String :=
  ["liter", "litre", "ml", "kg", "gram", "gm", "oz", "inch", "cm", "mm",
   "liquid", "soap", "gel", "powder", "cream", "oil", "lotion", "spray",
   "pack", "set", "box", "case", "bundle", "refill", "new", "fresh",
   "small", "large", "medium", "mini", "big", "giant", "tiny",
   "red", "blue", "green", "black", "white", "yellow", "pink",
   "with", "and", "for", "the", "best", "premium", "quality", "value",
   "dishwash", "bathing", "bar", "bottle", "container", "tube", "jar"]

/-- Title-Case test of the capitalized-word scan: first character equal
to its upper-case form, second equal to its lower-case form. -/
def isCapitalizedWord (w : String) : Bool :=
  match w.data with
  | c0 :: c1 :: _ => (c0 == jsUpperChar c0) && (c1 == jsLowerChar c1)
  | _ => false

/-- One step of the capitalized-word scan: push the lowercased word
unless it is already present. -/
def dedupePush (acc : List String) (w : String) : List String :=
  let normalized := jsToLower w
  if acc.contains normalized then acc else acc ++ [normalized]

/-- `detectBrands` of brandUtils.js. -/
def detectBrands (query : String) : List String :=
  let words := (jsSplitWs (jsToLower query)).filter (fun w => 2 < w.length)
  let potentialBrands : List String :=
    match words with
    | [] => []
    | w :: _ => if genericWords.contains w then [] else [w]
  let capitalizedWords := (jsSplitWs query).filter (fun w =>
    (1 < w.length) && isCapitalizedWord w &&
      !(genericWords.contains (jsToLower w)))
  let pb2 := capitalizedWords.foldl dedupePush potentialBrands
  if pb2.isEmpty then words.filter (fun w => !(genericWords.contains w))
  else pb2

/-- `checkBrandMatch` of brandUtils.js (`title` may be null). -/
def checkBrandMatch (title : Option String) (potentialBrands : List String) : Bool :=
  match title with
  | none => false
  | some t =>
      if t = "" || potentialBrands.isEmpty then false
      else
        let lowTitle := jsToLower t
        let titleWords := jsSplitWs lowTitle
        let firstTitleWord := jsToLower (titleWords.headD "")
        let m1 := potentialBrands.any (fun brand =>
          firstTitleWord = brand || jsIncludes firstTitleWord brand ||
            jsIncludes brand firstTitleWord)
        if m1 then true
        else
          let m2 := potentialBrands.any (fun brand =>
            jsIncludes lowTitle brand && (jsIndexOf lowTitle brand < 20))
          if m2 then true
          else
            potentialBrands.any (fun brand =>
              titleWords.any (fun w => jsToLower w = brand) ||
                titleWords.any (fun w =>
                  jsIncludes (jsToLower w) brand || jsIncludes brand (jsToLower w)))

/-! ## resultUtils.js and the price-categorisation of priceUtils.js -/

/-- A raw scraped record, as categorizeResults receives it.  The
scrapers emit platform, title, price and link; only the title and the
price are consulted here, and no `id` field exists on any record. -/
structure Item where
  title : String
  price : Option String
deriving DecidableEq, Repr

/-- The `attributes` object attached to each record. -/
structure Attributes where
  weight : Option String
  individualWeight : JSNum
  totalWeight : JSNum
  weightUnit : String
  packSize : Option Nat
  priceValue : JSNum
  unitPrice : JSNum
  unitPriceFormatted : Option String
  features : List String
deriving DecidableEq, Repr

/-- A record after the per-item processing of categorizeResults. -/
structure ProcItem where
  item : Item
  weightInfo : Option String
  packInfo : Option String
  features : List String
  unitPrice : JSNum
  unitPriceFormatted : Option String
  attributes : Attributes
  priceCategory : Option String
deriving DecidableEq, Repr

/-- The per-item attribute attachment of categorizeResults (lines
22-63 of resultUtils.js), before classification. -/
def processItem (it : Item) : ProcItem :=
  let lowTitle := jsToLower it.title
  let weightMatch := extractWeight lowTitle
  let packMatch := extractPackSize lowTitle
  let priceValue := extractNumericPrice it.price
  let info := calculateWeightAndPrice weightMatch packMatch priceValue
  let features := extractFeatures lowTitle
  { item := it
    weightInfo := weightMatch.map (fun m => m.full)
    packInfo := packMatch.map (fun m => m.full)
    features := features
    unitPrice := info.unitPrice
    unitPriceFormatted := info.unitPriceFormatted
    attributes :=
      { weight := weightMatch.map (fun m => m.full)
        individualWeight := info.individualWeight
        totalWeight := info.totalWeight
        weightUnit := info.weightUnit
        packSize := info.packSize
        priceValue := if priceValue.truthy then priceValue else JSNum.num 0
        unitPrice := info.unitPrice
        unitPriceFormatted := info.unitPriceFormatted
        features := features }
    priceCategory := none }

/-- JavaScript truthiness of the optional searchSize string. -/
def jsStrOptTruthy : Option String → Bool
  | none => false
  | some s => s ≠ ""

/-- The exact-match classification of categorizeResults (lines 65-72):
brand match, refined by the size comparator only when a search size is
present and a weight was detected. -/
def isExactFor (potentialBrands : List String) (searchSize : Option String)
    (it : Item) : Bool :=
  let lowTitle := jsToLower it.title
  let isExactBrandMatch := checkBrandMatch (some lowTitle) potentialBrands
  let weightMatch := extractWeight lowTitle
  if isExactBrandMatch && jsStrOptTruthy searchSize && weightMatch.isSome then
    compareSizes weightMatch searchSize
  else isExactBrandMatch

/-- The sort comparator of categorizeByPrice (priceUtils.js lines 29-40). -/
def sortCmp (a b : ProcItem) : JSNum :=
  if a.unitPrice.truthy && b.unitPrice.truthy then a.unitPrice.sub b.unitPrice
  else if a.unitPrice.truthy then JSNum.num (-1)
  else if b.unitPrice.truthy then JSNum.num 1
  else (extractNumericPrice a.item.price).sub (extractNumericPrice b.item.price)

/-- Strict "comes first" relation induced by the comparator (a NaN
comparator value counts as a tie, per the ECMAScript sort contract). -/
def cmpLtB (a b : ProcItem) : Bool := (sortCmp a b).negB

/-- Stable insertion placing `a` after every element it ties with. -/
def insertAfterEq (lt : α → α → Bool) (a : α) : List α → List α
  | [] => [a]
  | b :: l => if lt a b then a :: b :: l else b :: insertAfterEq lt a l

/-- Stable sort modelling `[...products].sort(comparator)`. -/
def sortStable (l : List ProcItem) : List ProcItem :=
  l.foldl (fun acc x => insertAfterEq cmpLtB x acc) []

/-- `categorizeByPrice` of priceUtils.js.  The scraped records carry no
`id` field, so every key expression `sortedProducts[i].id` evaluates to
`undefined` and every `result[...] = category` statement assigns the
single object property "undefined"; the object is therefore the
sequence of category values assigned to that one key, in execution
order (one entry per assignment statement). -/
def categorizeByPrice (products : List ProcItem) : List String :=
  if products.isEmpty then []
  else
    match sortStable products with
    | [] => []
    | [_] => ["cheapest"]
    | [_, _] => ["cheapest", "expensive"]
    | _ :: b :: c :: rest =>
        ("cheapest" :: ((b :: c :: rest).dropLast.map (fun _ => "medium"))) ++
          ["expensive"]

/-- `categories[item.id] || 'medium'`. -/
def jsOrMedium : Option String → String
  | some s => if s = "" then "medium" else s
  | none => "medium"

/-- The per-bucket category attachment of categorizeResults (lines
82-93 of resultUtils.js).  `item.id` is `undefined` for every record,
so `categories[item.id]` reads the single key "undefined": the value of
the last assignment made by categorizeByPrice, or `undefined` (hence
the `|| 'medium'` fallback) when the bucket was empty. -/
def attachPriceCategories (bucket : List ProcItem) : List ProcItem :=
  let cats := categorizeByPrice bucket
  bucket.map (fun p =>
    { p with priceCategory := some (jsOrMedium cats.getLast?) })

/-- `categorizeResults` of resultUtils.js. -/
def categorizeResults (results : List Item) (potentialBrands : List String)
    (searchSize : Option String) : List ProcItem × List ProcItem :=
  let processed := results.map processItem
  let exactMatches := processed.filter (fun p => isExactFor potentialBrands searchSize p.item)
  let alternatives := processed.filter (fun p => !(isExactFor potentialBrands searchSize p.item))
  (attachPriceCategories exactMatches, attachPriceCategories alternatives)

/-- The duplicate-identity key of removeDuplicates: lowercased title,
an underscore, and the raw price string (a null price interpolates as
the text "null" in the template literal). -/
def dedupeKey (it : Item) : String :=
  jsToLower it.title ++ "_" ++ (match it.price with | some p => p | none => "null")

/-- `removeDuplicates` of resultUtils.js, with the `seen` set made
explicit. -/
def removeDupAux (seen : List String) : List Item → List Item
  | [] => []
  | it :: rest =>
      let key := dedupeKey it
      if seen.contains key then removeDupAux seen rest
      else it :: removeDupAux (key :: seen) rest

def removeDuplicates (results : List Item) : List Item :=
  removeDupAux [] results

/-- Category of the record at sorted position `i` in a bucket of `n`
records, as the claims state it. -/
def posCategory (i n : Nat) : String :=
  if n = 1 then "cheapest"
  else if n = 2 then (if i = 0 then "cheapest" else "expensive")
  else if i = 0 then "cheapest"
  else if i = n - 1 then "expensive"
  else "medium"

/-- A record whose effective price is the unparseable-price sentinel:
no truthy unit price and a raw price equal to `Number.MAX_VALUE`. -/
def bottomSentinel (p : ProcItem) : Bool :=
  !p.unitPrice.truthy && decide (extractNumericPrice p.item.price = JSNum.num jsMaxValue)

/-- A processed record carrying only a distinguishing title and a unit
price (for concrete ranking instances). -/
def mkProcUP (t : String) (up : ℚ) : ProcItem :=
  { item := ⟨t, none⟩
    weightInfo := none
    packInfo := none
    features := []
    unitPrice := JSNum.num up
    unitPriceFormatted := none
    attributes :=
      ⟨none, JSNum.num 0, JSNum.num 0, "", none, JSNum.num 0, JSNum.num up, none, []⟩
    priceCategory := none }

/-- Concrete bucket for the sentinel-sinks-to-bottom property: one
record with a unit price (title "b") and two records with absent
prices (titles "a" and "c"), whose extracted price is the sentinel. -/
def sentinelBucket : List ProcItem :=
  [mkProcUP "a" 0, mkProcUP "b" 10, mkProcUP "c" 0]

/-! ## Helper lemmas -/

lemma rupee_append_includes (t : String) : jsIncludes ("₹" ++ t) "₹" = true := by
  obtain ⟨l⟩ := t
  simp [jsIncludes, firstIdxFrom, leadsWith]

lemma rupee_append_ne_empty (t : String) : ("₹" ++ t) ≠ "" := by
  obtain ⟨l⟩ := t
  simp [String.ext_iff]

lemma includes_rupee_ne_empty {s : String} (h : jsIncludes s "₹" = true) : s ≠ "" := by
  intro he
  subst he
  simp [jsIncludes, firstIdxFrom, leadsWith] at h

lemma processItem_item (it : Item) : (processItem it).item = it := rfl

lemma attachPriceCategories_map_item (l : List ProcItem) :
    (attachPriceCategories l).map (fun p => p.item) = l.map (fun p => p.item) := by
  simp [attachPriceCategories, Function.comp]

lemma map_processItem_map_item (results : List Item) :
    (results.map processItem).map (fun p => p.item) = results := by
  induction results with
  | nil => rfl
  | cons a l ih =>
      simp only [List.map_cons, processItem_item, List.cons.injEq]
      exact ⟨trivial, ih⟩

/-! ## Claim C8: formatPrice idempotence -/

/-- C8: formatPrice is idempotent: for every numeric input and for
every string input already containing the currency symbol,
formatPrice (formatPrice x) = formatPrice x, and an already-formatted
string is returned unchanged. -/
theorem formatPrice_idempotent :
    (∀ n : JSNum, formatPrice (JSVal.vstr (formatPrice (JSVal.vnum n))) =
      formatPrice (JSVal.vnum n)) ∧
    (∀ s : String, jsIncludes s "₹" = true →
      formatPrice (JSVal.vstr s) = s ∧
      formatPrice (JSVal.vstr (formatPrice (JSVal.vstr s))) =
        formatPrice (JSVal.vstr s)) := by
  have hstr : ∀ s : String, jsIncludes s "₹" = true → formatPrice (JSVal.vstr s) = s := by
    intro s hs
    have hne := includes_rupee_ne_empty hs
    simp [formatPrice, jsValFalsy, hne, hs]
  constructor
  · intro n
    by_cases hf : jsValFalsy (JSVal.vnum n) = true
    · have h1 : formatPrice (JSVal.vnum n) = "₹0.00" := by
        simp [formatPrice, hf]
      rw [h1]
      exact hstr _ (by decide)
    · have hf2 : jsValFalsy (JSVal.vnum n) = false := by
        simpa using hf
      have h1 : formatPrice (JSVal.vnum n) = "₹" ++ jsToFixed2 n := by
        simp [formatPrice, hf2]
      rw [h1]
      exact hstr _ (rupee_append_includes _)
  · intro s hs
    refine ⟨hstr s hs, ?_⟩
    rw [hstr s hs, hstr s hs]

/-- C8 witness: a concrete already-formatted string is returned
unchanged, and formatting a concrete number is idempotent. -/
theorem formatPrice_idempotent_witness :
    jsIncludes "₹499" "₹" = true ∧
    formatPrice (JSVal.vstr "₹499") = "₹499" ∧
    formatPrice (JSVal.vstr (formatPrice (JSVal.vnum (JSNum.num 50)))) =
      formatPrice (JSVal.vnum (JSNum.num 50)) :=
  ⟨by decide,
   (formatPrice_idempotent.2 "₹499" (by decide)).1,
   formatPrice_idempotent.1 (JSNum.num 50)⟩

/-! ## Claim C4: unit canonicalization and unit price -/

lemma processItem_unitPrice (it : Item) :
    (processItem it).unitPrice =
      (calculateWeightAndPrice (extractWeight (jsToLower it.title))
        (extractPackSize (jsToLower it.title)) (extractNumericPrice it.price)).unitPrice := rfl

lemma processItem_unitPriceFormatted (it : Item) :
    (processItem it).unitPriceFormatted =
      (calculateWeightAndPrice (extractWeight (jsToLower it.title))
        (extractPackSize (jsToLower it.title))
        (extractNumericPrice it.price)).unitPriceFormatted := rfl

lemma cwp_unitPriceFormatted (wm : Option WMatch) (pm : Option PMatch) (pv : JSNum) :
    (calculateWeightAndPrice wm pm pv).unitPriceFormatted =
      if (calculateWeightAndPrice wm pm pv).totalWeight.posB then
        some (currencyMojibake ++
          jsToFixed2 ((calculateWeightAndPrice wm pm pv).unitPrice) ++ "/" ++
          (if (calculateWeightAndPrice wm pm pv).weightUnit = "ml" then "100ml" else "100g"))
      else none := by
  cases wm <;> rfl

/-- C4: kg canonicalizes to grams x1000 and l to milliliters x1000
("2kg" gives 2000 "g", "1.5l" gives 1500 "ml"), and title "soap 100g"
with price "₹50" yields unitPrice 50; but the formatted unit price the
code produces is prefixed by the mojibake bytes of attributeUtils.js
line 141, not by the rupee sign the claim states, so
unitPriceFormatted differs from "₹50.00/100g". -/
theorem calculateWeightAndPrice_canonicalization_and_mojibake :
    (calculateWeightAndPrice (extractWeight "2kg") none (JSNum.num 50)).individualWeight =
      JSNum.num 2000 ∧
    (calculateWeightAndPrice (extractWeight "2kg") none (JSNum.num 50)).weightUnit = "g" ∧
    (calculateWeightAndPrice (extractWeight "1.5l") none (JSNum.num 50)).individualWeight =
      JSNum.num 1500 ∧
    (calculateWeightAndPrice (extractWeight "1.5l") none (JSNum.num 50)).weightUnit = "ml" ∧
    (processItem ⟨"soap 100g", some "₹50"⟩).unitPrice = JSNum.num 50 ∧
    (processItem ⟨"soap 100g", some "₹50"⟩).unitPriceFormatted =
      some (currencyMojibake ++ "50.00/100g") ∧
    currencyMojibake ≠ "₹" ∧
    (processItem ⟨"soap 100g", some "₹50"⟩).unitPriceFormatted ≠
      some "₹50.00/100g" := by
  have hlow : jsToLower "soap 100g" = "soap 100g" := by decide
  have hwm : extractWeight "soap 100g" = some ⟨"100g", "100", "g"⟩ := by decide
  have hpm : extractPackSize "soap 100g" = none := by decide
  have hpv : extractNumericPrice (some "₹50") = JSNum.num 50 := by
    with_unfolding_all decide
  have hfmt : (processItem ⟨"soap 100g", some "₹50"⟩).unitPriceFormatted =
      some (currencyMojibake ++ "50.00/100g") := by
    rw [processItem_unitPriceFormatted]
    simp only [hlow, hwm, hpm, hpv]
    rw [cwp_unitPriceFormatted]
    have h1 : (calculateWeightAndPrice (some ⟨"100g", "100", "g"⟩) none
        (JSNum.num 50)).totalWeight.posB = true := by with_unfolding_all decide
    have h2 : jsToFixed2 ((calculateWeightAndPrice (some ⟨"100g", "100", "g"⟩) none
        (JSNum.num 50)).unitPrice) = "50.00" := by with_unfolding_all decide
    have h3 : (calculateWeightAndPrice (some ⟨"100g", "100", "g"⟩) none
        (JSNum.num 50)).weightUnit = "g" := by with_unfolding_all decide
    rw [h1, h2, h3]
    decide
  have hw2 : extractWeight "2kg" = some ⟨"2kg", "2", "kg"⟩ := by decide
  have hw3 : extractWeight "1.5l" = some ⟨"1.5l", "1.5", "l"⟩ := by decide
  refine ⟨?_, ?_, ?_, ?_, ?_, hfmt, by decide, ?_⟩
  · rw [hw2]; with_unfolding_all decide
  · rw [hw2]; decide
  · rw [hw3]; with_unfolding_all decide
  · rw [hw3]; decide
  · rw [processItem_unitPrice]
    simp only [hlow, hwm, hpm, hpv]
    with_unfolding_all decide
  · rw [hfmt]
    decide

/-! ## Claim C7: weight pattern order -/

/-- C7 counterexample: the title "2-liter 500g" matches both the
hyphenated pattern (capture "2-l") and the bare no-space pattern
(capture "500g"), yet extractWeight returns "500g": the standard
spaced pattern is tried first and wins, so the hyphenated capture is
not returned. -/
theorem extractWeight_hyphen_not_first_counterexample :
    extractWeight "2-liter 500g" = some ⟨"500g", "500", "g"⟩ ∧
    matchWeightP1 ("2-liter 500g").data = some ⟨"2-l", "2", "l"⟩ ∧
    matchWeightP2 ("2-liter 500g").data = some ⟨"500g", "500", "g"⟩ ∧
    extractWeight "2-liter 500g" ≠ matchWeightP1 ("2-liter 500g").data := by
  refine ⟨by decide, by decide, by decide, by decide⟩

/-- C7 amended: extractWeight tries the ordered pattern list with
first-match-wins; the standard spaced pattern comes first, then the
hyphenated pattern, then the bare no-space pattern, so the hyphenated
capture is returned exactly when the standard pattern finds no match. -/
theorem extractWeight_pattern_order (t : String) (m : WMatch) :
    (t ≠ "" → matchWeightP0 t.data = some m → extractWeight t = some m) ∧
    (t ≠ "" → matchWeightP0 t.data = none → matchWeightP1 t.data = some m →
      extractWeight t = some m) ∧
    extractWeight t = (if t = "" then none else firstPattern weightPatterns t.data) := by
  refine ⟨?_, ?_, rfl⟩
  · intro hne h0
    simp [extractWeight, firstPattern, weightPatterns, hne, h0]
  · intro hne h0 h1
    simp [extractWeight, firstPattern, weightPatterns, hne, h0, h1]

/-- C7 witness: on the purely hyphenated title "2-liter" the standard
pattern fails and the hyphenated capture is returned. -/
theorem extractWeight_pattern_order_witness :
    extractWeight "2-liter" = some ⟨"2-l", "2", "l"⟩ :=
  (extractWeight_pattern_order "2-liter" ⟨"2-l", "2", "l"⟩).2.1
    (by decide) (by decide) (by decide)

/-! ## Claim C2: exact-match classification -/

/-- C2 counterexample: the query specified a size ("100g") and the
brand matches, but no weight is detected on the title "Dove Soap";
the code skips the size check and places the record in exactMatches,
not in alternatives as the claim states. -/
theorem categorizeResults_no_weight_goes_exact :
    checkBrandMatch (some (jsToLower "Dove Soap")) ["dove"] = true ∧
    extractWeight (jsToLower "Dove Soap") = none ∧
    ((categorizeResults [⟨"Dove Soap", some "₹50"⟩] ["dove"] (some "100g")).1).map
      (fun p => p.item) = [⟨"Dove Soap", some "₹50"⟩] ∧
    (categorizeResults [⟨"Dove Soap", some "₹50"⟩] ["dove"] (some "100g")).2 = [] := by
  refine ⟨by decide, by decide, by decide, by decide⟩

/-- C2 amended: a record is exact iff the brand matcher succeeds and,
when a search size is present AND a weight was detected, the size
comparator succeeds; when the query specified a size but no weight was
detected, the size check is skipped and the brand match alone places
the record in exactMatches (not in alternatives). -/
theorem categorizeResults_exact_iff (results : List Item) (brands : List String)
    (ss : Option String) :
    ((categorizeResults results brands ss).1.map (fun p => p.item) =
      results.filter (fun it => isExactFor brands ss it)) ∧
    ((categorizeResults results brands ss).2.map (fun p => p.item) =
      results.filter (fun it => !(isExactFor brands ss it))) ∧
    (∀ it : Item, isExactFor brands ss it = true ↔
      (checkBrandMatch (some (jsToLower it.title)) brands = true ∧
        (jsStrOptTruthy ss = true → (extractWeight (jsToLower it.title)).isSome = true →
          compareSizes (extractWeight (jsToLower it.title)) ss = true))) ∧
    (∀ it : Item, checkBrandMatch (some (jsToLower it.title)) brands = true →
      jsStrOptTruthy ss = true → extractWeight (jsToLower it.title) = none →
      isExactFor brands ss it = true) := by
  have hitem : ∀ it : Item, (processItem it).item = it := fun _ => rfl
  have hmapfil : ∀ (p : Item → Bool),
      ((results.map processItem).filter (fun q => p q.item)).map (fun q => q.item) =
        results.filter p := by
    intro p
    induction results with
    | nil => rfl
    | cons a l ih =>
        simp only [List.map_cons, List.filter_cons, hitem]
        cases hp : p a <;> simp [hp, ih, hitem]
  have hattach : ∀ (l : List ProcItem),
      (attachPriceCategories l).map (fun p => p.item) = l.map (fun p => p.item) := by
    intro l
    simp [attachPriceCategories, Function.comp]
  constructor
  · show ((attachPriceCategories _).map (fun p => p.item) = _)
    rw [hattach]
    exact hmapfil (fun it => isExactFor brands ss it)
  constructor
  · show ((attachPriceCategories _).map (fun p => p.item) = _)
    rw [hattach]
    exact hmapfil (fun it => !(isExactFor brands ss it))
  constructor
  · intro it
    simp only [isExactFor]
    cases hb : checkBrandMatch (some (jsToLower it.title)) brands <;>
      cases hts : jsStrOptTruthy ss <;>
        cases hws : (extractWeight (jsToLower it.title)).isSome <;>
          simp [hb, hts, hws]
  · intro it hb hts hwn
    simp [isExactFor, hb, hts, hwn]

/-- C2 witness: for the brand-matching weightless record, the amended
classification yields an exact match. -/
theorem categorizeResults_exact_iff_witness :
    isExactFor ["dove"] (some "100g") ⟨"Dove Soap", some "₹50"⟩ = true :=
  (categorizeResults_exact_iff [⟨"Dove Soap", some "₹50"⟩] ["dove"]
    (some "100g")).2.2.2 ⟨"Dove Soap", some "₹50"⟩ (by decide) (by decide) (by decide)

/-! ## Claim C5: size comparison -/

/-- C5: compareSizes returns true iff the two extracted numeric values
differ by less than 0.1 and the units fall in the same dimension class
(volume when the unit text contains one of l/liter/litre/ml, else
weight); cross-dimension pairs are false even at numeric equality. -/
theorem compareSizes_iff (wm : WMatch) (ss : String) (st pt : List Char) (sv pv : ℚ)
    (hne : ss ≠ "")
    (hst : firstRunOf isDigitDot ss.data = some st)
    (hsv : jsParseFloat (String.mk st) = JSNum.num sv)
    (hpt : firstRunOf isDigitDot (jsToLower wm.full).data = some pt)
    (hpv : jsParseFloat (String.mk pt) = JSNum.num pv) :
    (compareSizes (some wm) (some ss) = true ↔
      ((volumeUnits.any (fun u => jsIncludes (searchUnitOf ss) u) =
        volumeUnits.any (fun u => jsIncludes (searchUnitOf (jsToLower wm.full)) u)) ∧
       |sv - pv| < 1 / 10)) ∧
    compareSizes (some ⟨"2l", "2", "l"⟩) (some "2kg") = false := by
  constructor
  · simp only [compareSizes, hne, hst, hpt, hsv, hpv, if_neg]
    cases ha : volumeUnits.any (fun u => jsIncludes (searchUnitOf ss) u) <;>
      cases hb : volumeUnits.any (fun u => jsIncludes (searchUnitOf (jsToLower wm.full)) u) <;>
        simp [JSNum.sub, absLtTenth, ha, hb]
  · decide

/-- C5 witness: equal volume sizes "2l" against "2l" compare as a
match. -/
theorem compareSizes_iff_witness :
    compareSizes (some ⟨"2l", "2", "l"⟩) (some "2l") = true :=
  ((compareSizes_iff ⟨"2l", "2", "l"⟩ "2l" ['2'] ['2'] 2 2
    (by decide) (by decide) (by with_unfolding_all decide)
    (by decide) (by with_unfolding_all decide)).1).mpr
    ⟨by decide, by norm_num⟩

/-! ## Claim C10: empty brand list -/

/-- C10: checkBrandMatch is false on an empty candidate list (and on a
null or empty title); consequently, categorizing any record list with
an empty potentialBrands list yields an empty exactMatches bucket and
every record lands in alternatives, in order. -/
theorem checkBrandMatch_empty_brands (results : List Item) (ss : Option String)
    (brands : List String) (t : Option String) :
    checkBrandMatch t [] = false ∧
    checkBrandMatch none brands = false ∧
    checkBrandMatch (some "") brands = false ∧
    (categorizeResults results [] ss).1 = [] ∧
    (categorizeResults results [] ss).2.map (fun p => p.item) = results := by
  have hb : ∀ u : Option String, checkBrandMatch u [] = false := by
    intro u
    cases u with
    | none => rfl
    | some s => simp [checkBrandMatch]
  have hex : ∀ it : Item, isExactFor [] ss it = false := by
    intro it
    simp [isExactFor, hb]
  refine ⟨hb t, rfl, by simp [checkBrandMatch], ?_, ?_⟩
  · show attachPriceCategories ((results.map processItem).filter
      (fun p => isExactFor [] ss p.item)) = []
    have : (results.map processItem).filter (fun p => isExactFor [] ss p.item) = [] := by
      induction results with
      | nil => rfl
      | cons a l ih => simp [List.filter_cons, hex, ih]
    rw [this]
    rfl
  · show (attachPriceCategories ((results.map processItem).filter
      (fun p => !(isExactFor [] ss p.item)))).map (fun p => p.item) = results
    have h1 : (results.map processItem).filter (fun p => !(isExactFor [] ss p.item)) =
        results.map processItem := by
      induction results with
      | nil => rfl
      | cons a l ih => simp [List.filter_cons, hex, ih]
    rw [h1, attachPriceCategories_map_item, map_processItem_map_item]


/-! ## Claim C6: removeDuplicates -/

lemma removeDupAux_sublist (seen : List String) (l : List Item) :
    (removeDupAux seen l).Sublist l := by
  induction l generalizing seen with
  | nil => exact List.Sublist.refl []
  | cons it rest ih =>
      simp only [removeDupAux]
      split
      · exact (ih seen).cons it
      · exact (ih (dedupeKey it :: seen)).cons₂ it

lemma removeDupAux_keys (seen : List String) (l : List Item) :
    ((removeDupAux seen l).map dedupeKey).Nodup ∧
    ∀ y ∈ removeDupAux seen l, dedupeKey y ∉ seen := by
  induction l generalizing seen with
  | nil => exact ⟨List.nodup_nil, by intro y hy; cases hy⟩
  | cons it rest ih =>
      simp only [removeDupAux]
      split
      · exact ih seen
      · rename_i hc
        obtain ⟨ihn, ihs⟩ := ih (dedupeKey it :: seen)
        have hknot : dedupeKey it ∉ seen := by
          intro hmem
          exact hc (by simp [List.contains, List.elem_iff, hmem])
        refine ⟨?_, ?_⟩
        · simp only [List.map_cons, List.nodup_cons]
          refine ⟨?_, ihn⟩
          intro hmem
          obtain ⟨y, hy, hkey⟩ := List.mem_map.mp hmem
          exact (ihs y hy) (by rw [hkey]; exact List.mem_cons_self _ _)
        · intro y hy
          rcases List.mem_cons.mp hy with h | h
          · subst h; exact hknot
          · intro hmem
            exact (ihs y h) (List.mem_cons_of_mem _ hmem)

lemma removeDupAux_mem_iff (seen : List String) (l : List Item) (x : Item) :
    x ∈ removeDupAux seen l ↔
      ∃ pre post, l = pre ++ x :: post ∧ dedupeKey x ∉ seen ∧
        ∀ y ∈ pre, dedupeKey y ≠ dedupeKey x := by
  induction l generalizing seen with
  | nil =>
      simp only [removeDupAux, List.not_mem_nil, false_iff]
      rintro ⟨pre, post, habs, -⟩
      exact absurd habs.symm (List.append_ne_nil_of_right_ne_nil pre (List.cons_ne_nil x post))
  | cons it rest ih =>
      simp only [removeDupAux]
      have hcontains : (seen.contains (dedupeKey it) = true) ↔ dedupeKey it ∈ seen := by
        simp [List.contains, List.elem_iff]
      split
      · rename_i hc
        have hin : dedupeKey it ∈ seen := hcontains.mp hc
        rw [ih seen]
        constructor
        · rintro ⟨pre, post, hrest, hnot, hpre⟩
          refine ⟨it :: pre, post, by simp [hrest], hnot, ?_⟩
          intro y hy
          rcases List.mem_cons.mp hy with h | h
          · subst h
            intro heq
            exact hnot (heq ▸ hin)
          · exact hpre y h
        · rintro ⟨pre, post, hl, hnot, hpre⟩
          cases pre with
          | nil =>
              simp only [List.nil_append, List.cons.injEq] at hl
              exact absurd (hl.1 ▸ hin) hnot
          | cons a pre2 =>
              simp only [List.cons_append, List.cons.injEq] at hl
              exact ⟨pre2, post, hl.2, hnot, fun y hy => hpre y (List.mem_cons_of_mem a hy)⟩
      · rename_i hc
        have hnotin : dedupeKey it ∉ seen := fun hmem => hc (hcontains.mpr hmem)
        rw [List.mem_cons, ih (dedupeKey it :: seen)]
        constructor
        · rintro (rfl | ⟨pre, post, hrest, hnot, hpre⟩)
          · exact ⟨[], rest, rfl, hnotin, by intro y hy; cases hy⟩
          · have hne : dedupeKey x ≠ dedupeKey it := by
              intro heq
              exact hnot (heq ▸ List.mem_cons_self _ _)
            refine ⟨it :: pre, post, by simp [hrest], ?_, ?_⟩
            · intro hmem
              exact hnot (List.mem_cons_of_mem _ hmem)
            · intro y hy
              rcases List.mem_cons.mp hy with h | h
              · subst h; exact fun heq => hne heq.symm
              · exact hpre y h
        · rintro ⟨pre, post, hl, hnot, hpre⟩
          cases pre with
          | nil =>
              simp only [List.nil_append, List.cons.injEq] at hl
              exact Or.inl hl.1.symm
          | cons a pre2 =>
              simp only [List.cons_append, List.cons.injEq] at hl
              refine Or.inr ⟨pre2, post, hl.2, ?_, fun y hy => hpre y (List.mem_cons_of_mem a hy)⟩
              intro hmem
              rcases List.mem_cons.mp hmem with h | h
              · exact (hpre a (List.mem_cons_self a pre2)) (hl.1 ▸ h.symm ▸ rfl)
              · exact hnot h

/-- C6: removeDuplicates keeps exactly the first occurrence of each
identity key (lowercased title joined with the raw price string),
preserves relative order, and does not collapse records whose price
strings differ only in formatting ("₹499" vs "₹499.00"). -/
theorem removeDuplicates_characterization (l : List Item) (x : Item) :
    (removeDuplicates l).Sublist l ∧
    ((removeDuplicates l).map dedupeKey).Nodup ∧
    (x ∈ removeDuplicates l ↔
      ∃ pre post, l = pre ++ x :: post ∧ ∀ y ∈ pre, dedupeKey y ≠ dedupeKey x) ∧
    removeDuplicates [⟨"A Soap", some "₹499"⟩, ⟨"a soap", some "₹499"⟩] =
      [⟨"A Soap", some "₹499"⟩] ∧
    removeDuplicates [⟨"A Soap", some "₹499"⟩, ⟨"a soap", some "₹499.00"⟩] =
      [⟨"A Soap", some "₹499"⟩, ⟨"a soap", some "₹499.00"⟩] := by
  refine ⟨removeDupAux_sublist [] l, (removeDupAux_keys [] l).1, ?_, by decide, by decide⟩
  rw [removeDuplicates, removeDupAux_mem_iff]
  constructor
  · rintro ⟨pre, post, hl, -, hpre⟩
    exact ⟨pre, post, hl, hpre⟩
  · rintro ⟨pre, post, hl, hpre⟩
    exact ⟨pre, post, hl, by simp, hpre⟩

/-! ## Claim C9: leading-token brand detection -/

lemma isWs_jsLower (c : Char) : isWsChar (jsLowerChar c) = isWsChar c := by
  unfold jsLowerChar
  split <;> rfl

lemma splitStep_lower (c : Char) (acc : List (List Char) × Bool) :
    splitStep (jsLowerChar c) (acc.1.map (List.map jsLowerChar), acc.2) =
      ((splitStep c acc).1.map (List.map jsLowerChar), (splitStep c acc).2) := by
  unfold splitStep
  rw [isWs_jsLower]
  cases hw : isWsChar c
  · simp only [Bool.false_eq_true, if_false]
    cases acc.1 <;> simp
  · simp only [if_true]
    cases acc.2 <;> simp

lemma foldr_splitStep_lower (l : List Char) :
    (l.map jsLowerChar).foldr splitStep ([[]], false) =
      ((l.foldr splitStep ([[]], false)).1.map (List.map jsLowerChar),
       (l.foldr splitStep ([[]], false)).2) := by
  induction l with
  | nil => rfl
  | cons c t ih =>
      simp only [List.map_cons, List.foldr_cons, ih]
      exact splitStep_lower c (t.foldr splitStep ([[]], false))

lemma jsSplitWs_toLower (s : String) :
    jsSplitWs (jsToLower s) = (jsSplitWs s).map jsToLower := by
  show (splitWsFold ((String.mk (s.data.map jsLowerChar)).data)).map String.mk = _
  have hdata : (String.mk (s.data.map jsLowerChar)).data = s.data.map jsLowerChar := rfl
  rw [hdata]
  unfold splitWsFold
  rw [foldr_splitStep_lower]
  simp only [jsSplitWs, splitWsFold, List.map_map]
  rfl

lemma jsToLower_length (t : String) : (jsToLower t).length = t.length := by
  show (t.data.map jsLowerChar).length = t.data.length
  exact List.length_map t.data jsLowerChar

lemma foldl_dedupePush_append (l : List String) :
    ∀ init : List String, ∃ suf, l.foldl dedupePush init = init ++ suf := by
  induction l with
  | nil => exact fun init => ⟨[], (List.append_nil init).symm⟩
  | cons a t ih =>
      intro init
      show ∃ suf, t.foldl dedupePush (dedupePush init a) = init ++ suf
      by_cases hc : init.contains (jsToLower a) = true
      · have hstep : dedupePush init a = init := by
          show (if init.contains (jsToLower a) = true then init
            else init ++ [jsToLower a]) = init
          rw [hc]
          rfl
        rw [hstep]
        exact ih init
      · have hstep : dedupePush init a = init ++ [jsToLower a] := by
          show (if init.contains (jsToLower a) = true then init
            else init ++ [jsToLower a]) = init ++ [jsToLower a]
          rw [Bool.not_eq_true] at hc
          rw [hc]
          rfl
        rw [hstep]
        obtain ⟨suf, hsuf⟩ := ih (init ++ [jsToLower a])
        exact ⟨[jsToLower a] ++ suf, by rw [hsuf, List.append_assoc]⟩

/-- C9: if the first whitespace-delimited query token has length > 2
and its lowercased form is not in the generic-word list, detectBrands
returns it (lowercased) as the first candidate, before anything the
capitalized-word scan appends. -/
theorem detectBrands_first_token (q t : String)
    (hhead : (jsSplitWs q).head? = some t)
    (hlen : 2 < t.length)
    (hgen : genericWords.contains (jsToLower t) = false) :
    (detectBrands q).head? = some (jsToLower t) ∧ jsToLower t ∈ detectBrands q := by
  obtain ⟨rest, hq⟩ : ∃ rest, jsSplitWs q = t :: rest := by
    cases hqs : jsSplitWs q with
    | nil => rw [hqs] at hhead; cases hhead
    | cons a r =>
        rw [hqs] at hhead
        simp only [List.head?_cons, Option.some.injEq] at hhead
        exact ⟨r, by rw [hhead]⟩
  have hlow : jsSplitWs (jsToLower q) = jsToLower t :: rest.map jsToLower := by
    rw [jsSplitWs_toLower, hq]
    rfl
  have hlenlow : (2 < (jsToLower t).length) := by
    rw [jsToLower_length]
    exact hlen
  have hwords : (jsSplitWs (jsToLower q)).filter (fun w => 2 < w.length) =
      jsToLower t :: (rest.map jsToLower).filter (fun w => 2 < w.length) := by
    rw [hlow, List.filter_cons]
    simp [hlenlow]
  simp only [detectBrands, hwords, hgen, Bool.false_eq_true, if_false]
  obtain ⟨suf, hsuf⟩ := foldl_dedupePush_append
    ((jsSplitWs q).filter (fun w =>
      (1 < w.length) && isCapitalizedWord w && !(genericWords.contains (jsToLower w))))
    [jsToLower t]
  rw [hsuf]
  simp

/-- C9 witness: for the query "xyz soap" the leading token "xyz" is
the first detected brand. -/
theorem detectBrands_first_token_witness :
    (jsSplitWs "xyz soap").head? = some "xyz" ∧
    (detectBrands "xyz soap").head? = some (jsToLower "xyz") :=
  ⟨by decide,
   (detectBrands_first_token "xyz soap" "xyz" (by decide) (by decide) (by decide)).1⟩

/-! ## Claim C1: price category by sorted position -/

lemma insertAfterEq_perm (lt : ProcItem → ProcItem → Bool) (a : ProcItem)
    (l : List ProcItem) : List.Perm (insertAfterEq lt a l) (a :: l) := by
  induction l with
  | nil => exact List.Perm.refl _
  | cons b t ih =>
      unfold insertAfterEq
      split
      · exact List.Perm.refl _
      · exact (ih.cons b).trans (List.Perm.swap a b t)

lemma sortStable_perm (l : List ProcItem) : List.Perm (sortStable l) l := by
  suffices h : ∀ (l acc : List ProcItem),
      List.Perm (l.foldl (fun acc x => insertAfterEq cmpLtB x acc) acc) (acc ++ l) by
    simpa using h l []
  intro l
  induction l with
  | nil => intro acc; simp
  | cons x t ih =>
      intro acc
      simp only [List.foldl_cons]
      refine (ih (insertAfterEq cmpLtB x acc)).trans ?_
      refine (List.Perm.append_right t (insertAfterEq_perm cmpLtB x acc)).trans ?_
      exact List.perm_middle.symm
lemma posCategory_not_last {i n : Nat} (h2 : 2 ≤ n) (hi : i < n) (hne : i ≠ n - 1) :
    posCategory i n ≠ "expensive" := by
  unfold posCategory
  rw [if_neg (by omega : ¬ n = 1)]
  by_cases hn2 : n = 2
  · rw [if_pos hn2, if_pos (by omega : i = 0)]
    decide
  · rw [if_neg hn2]
    by_cases h0 : i = 0
    · rw [if_pos h0]
      decide
    · rw [if_neg h0, if_neg hne]
      decide

lemma categorizeByPrice_getLast (l : List ProcItem) (h2 : 2 ≤ l.length) :
    (categorizeByPrice l).getLast? = some "expensive" := by
  have hlen : (sortStable l).length = l.length := (sortStable_perm l).length_eq
  have hie : l.isEmpty = false := by
    cases l with
    | nil => exact absurd h2 (by decide)
    | cons a t => rfl
  rcases hs : sortStable l with _ | ⟨a, _ | ⟨b, _ | ⟨c, rest⟩⟩⟩
  · rw [hs] at hlen
    simp only [List.length_nil] at hlen
    omega
  · rw [hs] at hlen
    simp only [List.length_cons, List.length_nil] at hlen
    omega
  · unfold categorizeByPrice
    rw [hie, hs]
    rfl
  · unfold categorizeByPrice
    rw [hie, hs]
    show ((("cheapest" :: ((b :: c :: rest).dropLast.map (fun _ => "medium"))) ++
      ["expensive"]).getLast?) = some "expensive"
    exact List.getLast?_concat _

/-- C1: the scraped records carry no `id` field, so in categorizeByPrice
every `result[item.id]` assignment collides on the single object key
"undefined" and the lookup `categories[item.id]` returns the last
assigned category for every record.  Hence in any bucket of two or more
records every record receives priceCategory "expensive" — in particular
no record receives the claimed positional category of any non-last
sorted position ("cheapest" at position 0, "medium" at interior
positions), refuting the claimed positional mapping, although the
attachment does preserve the records and their original order. -/
theorem priceCategory_all_expensive (l : List ProcItem) (h2 : 2 ≤ l.length) :
    ((attachPriceCategories l).map (fun p => p.item) = l.map (fun p => p.item)) ∧
    ((attachPriceCategories l).map (fun p => p.unitPrice) = l.map (fun p => p.unitPrice)) ∧
    (∀ p ∈ attachPriceCategories l, p.priceCategory = some "expensive") ∧
    (∀ (i : Nat), i < (sortStable l).length → i ≠ (sortStable l).length - 1 →
      ∀ p ∈ attachPriceCategories l,
        p.priceCategory ≠ some (posCategory i (sortStable l).length)) := by
  have hcats := categorizeByPrice_getLast l h2
  have hall : ∀ p ∈ attachPriceCategories l, p.priceCategory = some "expensive" := by
    intro p hp
    simp only [attachPriceCategories, List.mem_map] at hp
    obtain ⟨q, hq, rfl⟩ := hp
    show some (jsOrMedium (categorizeByPrice l).getLast?) = some "expensive"
    rw [hcats]
    decide
  refine ⟨?_, ?_, hall, ?_⟩
  · simp [attachPriceCategories, Function.comp]
  · simp [attachPriceCategories, Function.comp]
  · intro i hi hne p hp hcon
    have h1 : some (posCategory i (sortStable l).length) = some "expensive" := by
      rw [← hcon, hall p hp]
    have hpc : posCategory i (sortStable l).length = "expensive" :=
      Option.some_inj.mp h1
    have hlen : (sortStable l).length = l.length := (sortStable_perm l).length_eq
    exact posCategory_not_last (by omega) hi hne hpc

/-- C1 witness: the spec's own example bucket with unit prices
[10, 5, 20] receives output-order categories
[expensive, expensive, expensive] — not the claimed
[medium, cheapest, expensive]. -/
theorem priceCategory_all_expensive_witness :
    (2 ≤ ([mkProcUP "a" 10, mkProcUP "b" 5, mkProcUP "c" 20] : List ProcItem).length) ∧
    (∀ p ∈ attachPriceCategories [mkProcUP "a" 10, mkProcUP "b" 5, mkProcUP "c" 20],
      p.priceCategory = some "expensive") ∧
    ((attachPriceCategories [mkProcUP "a" 10, mkProcUP "b" 5, mkProcUP "c" 20]).map
        (fun p => p.priceCategory) =
      [some "expensive", some "expensive", some "expensive"]) ∧
    ¬ ((attachPriceCategories [mkProcUP "a" 10, mkProcUP "b" 5, mkProcUP "c" 20]).map
        (fun p => p.priceCategory) =
      [some "medium", some "cheapest", some "expensive"]) := by
  have hsort : sortStable [mkProcUP "a" 10, mkProcUP "b" 5, mkProcUP "c" 20] =
      [mkProcUP "b" 5, mkProcUP "a" 10, mkProcUP "c" 20] := by
    with_unfolding_all decide
  have hcats : categorizeByPrice [mkProcUP "a" 10, mkProcUP "b" 5, mkProcUP "c" 20] =
      ["cheapest", "medium", "expensive"] := by
    unfold categorizeByPrice
    rw [hsort]
    rfl
  refine ⟨by decide,
    (priceCategory_all_expensive [mkProcUP "a" 10, mkProcUP "b" 5, mkProcUP "c" 20]
      (by decide)).2.2.1, ?_, ?_⟩
  · simp only [attachPriceCategories, hcats]
    decide
  · simp only [attachPriceCategories, hcats]
    decide


/-! ## Claim C3: unparseable price sentinel -/

/-- Parseable-or-sentinel raw price, bounded by the sentinel. -/
def rawBounded (p : ProcItem) : Prop :=
  ∃ q : ℚ, extractNumericPrice p.item.price = JSNum.num q ∧ q ≤ jsMaxValue

lemma bottomSentinel_spec {y : ProcItem} (h : bottomSentinel y = true) :
    y.unitPrice.truthy = false ∧
      extractNumericPrice y.item.price = JSNum.num jsMaxValue := by
  simpa [bottomSentinel] using h

lemma cmpLtB_bottom_right {x y : ProcItem} (hSx : rawBounded x)
    (hBy : bottomSentinel y = true) : cmpLtB y x = false := by
  obtain ⟨qx, hqx, hle⟩ := hSx
  obtain ⟨hyt, hyr⟩ := bottomSentinel_spec hBy
  unfold cmpLtB sortCmp
  rw [hyt]
  simp only [Bool.false_and, Bool.false_eq_true, if_false]
  cases hxt : x.unitPrice.truthy
  · simp only [Bool.false_eq_true, if_false]
    rw [hyr, hqx]
    show (JSNum.num (jsMaxValue - qx)).negB = false
    simp only [JSNum.negB, decide_eq_false_iff_not, not_lt]
    linarith
  · simp only [if_true]
    show (JSNum.num 1).negB = false
    simp only [JSNum.negB, decide_eq_false_iff_not, not_lt]
    norm_num

lemma cmpLtB_bottom_left {x y : ProcItem} (hSx : rawBounded x)
    (hBy : bottomSentinel y = true) (hBx : bottomSentinel x = false) :
    cmpLtB x y = true := by
  obtain ⟨qx, hqx, hle⟩ := hSx
  obtain ⟨hyt, hyr⟩ := bottomSentinel_spec hBy
  unfold cmpLtB sortCmp
  rw [hyt]
  cases hxt : x.unitPrice.truthy
  · simp only [Bool.false_and, Bool.false_eq_true, if_false]
    have hxr : extractNumericPrice x.item.price ≠ JSNum.num jsMaxValue := by
      simp only [bottomSentinel, hxt, Bool.not_false, Bool.true_and,
        decide_eq_false_iff_not] at hBx
      exact hBx
    have hql : qx < jsMaxValue := lt_of_le_of_ne hle (fun he => hxr (by rw [hqx, he]))
    rw [hqx, hyr]
    show (JSNum.num (qx - jsMaxValue)).negB = true
    simp only [JSNum.negB, decide_eq_true_eq]
    linarith
  · simp only [Bool.and_false, Bool.false_eq_true, if_false, if_true]
    show (JSNum.num (-1)).negB = true
    simp only [JSNum.negB, decide_eq_true_eq]
    norm_num

lemma insertAfterEq_all_false {lt : ProcItem → ProcItem → Bool} {a : ProcItem} :
    ∀ {L : List ProcItem}, (∀ b ∈ L, lt a b = false) →
      insertAfterEq lt a L = L ++ [a] := by
  intro L
  induction L with
  | nil => intro _; rfl
  | cons b t ih =>
      intro h
      unfold insertAfterEq
      rw [h b (List.mem_cons_self b t)]
      simp only [Bool.false_eq_true, if_false, List.cons_append, List.cons.injEq]
      exact ⟨trivial, ih (fun x hx => h x (List.mem_cons_of_mem b hx))⟩

lemma insertAfterEq_split_nonbottom {a : ProcItem}
    (hSa : rawBounded a) (hBa : bottomSentinel a = false) :
    ∀ (A : List ProcItem), (∀ p ∈ A, rawBounded p ∧ bottomSentinel p = false) →
    ∀ (Bs : List ProcItem), (∀ p ∈ Bs, rawBounded p ∧ bottomSentinel p = true) →
    ∃ A2, insertAfterEq cmpLtB a (A ++ Bs) = A2 ++ Bs ∧
      (∀ p ∈ A2, rawBounded p ∧ bottomSentinel p = false) := by
  intro A
  induction A with
  | nil =>
      intro _ Bs hBs
      cases Bs with
      | nil =>
          refine ⟨[a], rfl, ?_⟩
          intro p hp
          rw [List.mem_singleton.mp hp]
          exact ⟨hSa, hBa⟩
      | cons b bs =>
          have hlt : cmpLtB a b = true :=
            cmpLtB_bottom_left hSa (hBs b (List.mem_cons_self b bs)).2 hBa
          refine ⟨[a], ?_, ?_⟩
          · show insertAfterEq cmpLtB a (b :: bs) = [a] ++ b :: bs
            unfold insertAfterEq
            rw [hlt]
            simp
          · intro p hp
            rw [List.mem_singleton.mp hp]
            exact ⟨hSa, hBa⟩
  | cons cA tA ih =>
      intro hA Bs hBs
      by_cases hltc : cmpLtB a cA = true
      · refine ⟨a :: cA :: tA, ?_, ?_⟩
        · show insertAfterEq cmpLtB a (cA :: (tA ++ Bs)) = (a :: cA :: tA) ++ Bs
          unfold insertAfterEq
          rw [hltc]
          simp
        · intro p hp
          rcases List.mem_cons.mp hp with h | h
          · rw [h]; exact ⟨hSa, hBa⟩
          · exact hA p h
      · obtain ⟨A2, heq, hA2⟩ :=
          ih (fun p hp => hA p (List.mem_cons_of_mem cA hp)) Bs hBs
        refine ⟨cA :: A2, ?_, ?_⟩
        · show insertAfterEq cmpLtB a (cA :: (tA ++ Bs)) = (cA :: A2) ++ Bs
          have hfe : cmpLtB a cA = false := by
            simpa using hltc
          unfold insertAfterEq
          rw [hfe]
          simp only [Bool.false_eq_true, if_false, List.cons_append, List.cons.injEq]
          exact ⟨trivial, heq⟩
        · intro p hp
          rcases List.mem_cons.mp hp with h | h
          · rw [h]; exact (hA cA (List.mem_cons_self cA tA))
          · exact hA2 p h

lemma sortStable_split :
    ∀ (l acc A Bs : List ProcItem),
      (∀ p ∈ l, rawBounded p) →
      acc = A ++ Bs →
      (∀ p ∈ A, rawBounded p ∧ bottomSentinel p = false) →
      (∀ p ∈ Bs, rawBounded p ∧ bottomSentinel p = true) →
      ∃ A2 Bs2, l.foldl (fun acc x => insertAfterEq cmpLtB x acc) acc = A2 ++ Bs2 ∧
        (∀ p ∈ A2, rawBounded p ∧ bottomSentinel p = false) ∧
        (∀ p ∈ Bs2, rawBounded p ∧ bottomSentinel p = true) := by
  intro l
  induction l with
  | nil =>
      intro acc A Bs _ hacc hA hBs
      exact ⟨A, Bs, by simpa using hacc, hA, hBs⟩
  | cons x t ih =>
      intro acc A Bs hS hacc hA hBs
      subst hacc
      simp only [List.foldl_cons]
      have hSx : rawBounded x := hS x (List.mem_cons_self x t)
      have hSt : ∀ p ∈ t, rawBounded p := fun p hp => hS p (List.mem_cons_of_mem x hp)
      by_cases hBx : bottomSentinel x = true
      · have heq : insertAfterEq cmpLtB x (A ++ Bs) = A ++ (Bs ++ [x]) := by
          rw [insertAfterEq_all_false, List.append_assoc]
          intro b hb
          rcases List.mem_append.mp hb with h | h
          · exact cmpLtB_bottom_right (hA b h).1 hBx
          · exact cmpLtB_bottom_right (hBs b h).1 hBx
        refine ih (insertAfterEq cmpLtB x (A ++ Bs)) A (Bs ++ [x]) hSt heq hA ?_
        intro p hp
        rcases List.mem_append.mp hp with h | h
        · exact hBs p h
        · rw [List.mem_singleton.mp h]
          exact ⟨hSx, hBx⟩
      · have hBxf : bottomSentinel x = false := by simpa using hBx
        obtain ⟨A2, heq, hA2⟩ := insertAfterEq_split_nonbottom hSx hBxf A hA Bs hBs
        exact ih (insertAfterEq cmpLtB x (A ++ Bs)) A2 Bs hSt heq hA2 hBs

lemma sortStable_sentinel_suffix (l : List ProcItem)
    (hS : ∀ p ∈ l, rawBounded p) :
    ∃ A2 Bs2, sortStable l = A2 ++ Bs2 ∧
      (∀ p ∈ A2, bottomSentinel p = false) ∧
      (∀ p ∈ Bs2, bottomSentinel p = true) := by
  obtain ⟨A2, Bs2, heq, hA2, hBs2⟩ :=
    sortStable_split l [] [] [] hS rfl (by intro p hp; cases hp) (by intro p hp; cases hp)
  exact ⟨A2, Bs2, heq, fun p hp => (hA2 p hp).2, fun p hp => (hBs2 p hp).2⟩

lemma extractNumericPrice_noRun {p : Option String} (h : priceHasRun p = false) :
    extractNumericPrice p = JSNum.num jsMaxValue := by
  cases p with
  | none => rfl
  | some s =>
      have hnone : priceRunOf s = none := by
        simpa [priceHasRun, Option.isSome_iff_exists] using h
      by_cases hs : s = ""
      · simp [extractNumericPrice, hs]
      · simp [extractNumericPrice, hs, hnone]

lemma cwp_unitPrice_eq (wm : Option WMatch) (pm : Option PMatch) (pv : JSNum) :
    (calculateWeightAndPrice wm pm pv).unitPrice =
      if (calculateWeightAndPrice wm pm pv).totalWeight.posB
      then (pv.div ((calculateWeightAndPrice wm pm pv).totalWeight)).mul (JSNum.num 100)
      else JSNum.num 0 := by
  cases wm <;> rfl

lemma processItem_noWeight_unitPrice {it : Item}
    (h : extractWeight (jsToLower it.title) = none) :
    (processItem it).unitPrice = JSNum.num 0 := by
  rw [processItem_unitPrice, h, cwp_unitPrice_eq]
  have h0 : (calculateWeightAndPrice none (extractPackSize (jsToLower it.title))
      (extractNumericPrice it.price)).totalWeight.posB = false := by
    show (JSNum.num 0).posB = false
    norm_num [JSNum.posB]
  rw [h0]
  simp

/-- C3 counterexample: for the record with title "soap 100g" and an
empty (unparseable) price string, the price parser returns the
sentinel, a weight is detected, and the derived unitPrice is the
sentinel scaled by the weight: it is positive and not 0, even though
no numeric price was extracted, contradicting both the claimed
`unitPrice = 0` and the claimed invariant. -/
theorem sentinel_unitPrice_counterexample :
    priceHasRun (some "") = false ∧
    (extractWeight (jsToLower "soap 100g")).isSome = true ∧
    (processItem ⟨"soap 100g", some ""⟩).unitPrice ≠ JSNum.num 0 ∧
    (processItem ⟨"soap 100g", some ""⟩).unitPrice.posB = true ∧
    (processItem ⟨"soap 100g", some ""⟩).attributes.totalWeight.posB = true := by
  refine ⟨by decide, by decide, ?_, ?_, ?_⟩
  · with_unfolding_all decide
  · with_unfolding_all decide
  · with_unfolding_all decide

/-- C3 amended: an unparseable (or absent) price string yields the
sentinel `Number.MAX_VALUE`; a record with no detected weight derives
`unitPrice = 0`; `unitPrice > 0` iff `totalWeight > 0` and the price
value is positive (the sentinel counts as positive, so price
extraction failure alone does not make unitPrice zero); and in a
bucket of records whose raw prices are parseable-or-sentinel and
bounded by the sentinel, a record with unparseable price and no truthy
unit price sorts into the bottom region: every record after it in the
sorted order is also an unparseable-price record without unit price. -/
theorem sentinel_price_sorts_last :
    (∀ p : Option String, priceHasRun p = false →
      extractNumericPrice p = JSNum.num jsMaxValue) ∧
    (∀ it : Item, extractWeight (jsToLower it.title) = none →
      (processItem it).unitPrice = JSNum.num 0) ∧
    (∀ (wm : Option WMatch) (pm : Option PMatch) (pv : JSNum),
      (calculateWeightAndPrice wm pm pv).unitPrice.posB =
        ((calculateWeightAndPrice wm pm pv).totalWeight.posB && pv.posB)) ∧
    (∀ (l : List ProcItem) (r : ProcItem), r ∈ l →
      priceHasRun r.item.price = false →
      r.unitPrice.truthy = false →
      (∀ p ∈ l, rawBounded p) →
      ∀ (i j : Nat) (hi : i < (sortStable l).length) (hj : j < (sortStable l).length),
        (sortStable l).get ⟨i, hi⟩ = r → i < j →
        ((sortStable l).get ⟨j, hj⟩).unitPrice.truthy = false ∧
        extractNumericPrice ((sortStable l).get ⟨j, hj⟩).item.price =
          JSNum.num jsMaxValue) := by
  refine ⟨fun p h => extractNumericPrice_noRun h,
    fun it h => processItem_noWeight_unitPrice h, ?_, ?_⟩
  · intro wm pm pv
    rw [cwp_unitPrice_eq]
    cases htw : (calculateWeightAndPrice wm pm pv).totalWeight.posB
    · simp only [Bool.false_eq_true, if_false, Bool.false_and]
      norm_num [JSNum.posB]
    · simp only [if_true, Bool.true_and]
      rcases h : (calculateWeightAndPrice wm pm pv).totalWeight with _ | t
      · rw [h] at htw
        simp [JSNum.posB] at htw
      · rw [h] at htw
        have ht : 0 < t := by simpa [JSNum.posB] using htw
        cases pv with
        | nan => simp [JSNum.div, JSNum.mul, JSNum.posB]
        | num q =>
            have htne : t ≠ 0 := ne_of_gt ht
            simp only [JSNum.div, if_neg htne, JSNum.mul, JSNum.posB]
            rw [decide_eq_decide]
            rw [div_mul_eq_mul_div]
            rw [div_pos_iff]
            constructor
            · rintro (⟨hq, -⟩ | ⟨-, habs⟩)
              · rcases mul_pos_iff.mp hq with ⟨h1, -⟩ | ⟨-, habs2⟩
                · exact h1
                · norm_num at habs2
              · exact absurd habs (by linarith)
            · intro hq
              exact Or.inl ⟨by nlinarith, ht⟩
  · intro l r hrl hrun hrt hS i j hi hj hgeti hij
    have hBr : bottomSentinel r = true := by
      simp [bottomSentinel, hrt, extractNumericPrice_noRun hrun]
    obtain ⟨A2, Bs2, hsp, hA2, hBs2⟩ := sortStable_sentinel_suffix l hS
    clear hrl hrt hrun hS
    revert hi hj
    rw [hsp]
    intro hi hj hgeti
    have hiA : ¬ i < A2.length := by
      intro hlt
      have hmem : (A2 ++ Bs2).get ⟨i, hi⟩ ∈ A2 := by
        rw [List.get_append_left A2 Bs2 hlt]
        exact List.get_mem _ _ _
      have hBfalse := hA2 _ hmem
      rw [hgeti, hBr] at hBfalse
      cases hBfalse
    have hjmem : (A2 ++ Bs2).get ⟨j, hj⟩ ∈ Bs2 := by
      have hlen : (A2 ++ Bs2).length = A2.length + Bs2.length := List.length_append _ _
      rw [@List.get_append_right ProcItem j A2 Bs2 (by omega) hj (by omega)]
      exact List.get_mem _ _ _
    exact bottomSentinel_spec (hBs2 _ hjmem)

/-- C3 witness: in the concrete bucket the two sentinel-priced records
sink below the record with a unit price, and everything after the
first of them is itself sentinel-priced. -/
theorem sentinel_price_sorts_last_witness :
    sortStable sentinelBucket = [mkProcUP "b" 10, mkProcUP "a" 0, mkProcUP "c" 0] ∧
    ((mkProcUP "c" 0).unitPrice.truthy = false ∧
      extractNumericPrice (mkProcUP "c" 0).item.price = JSNum.num jsMaxValue) := by
  have hsort : sortStable sentinelBucket =
      [mkProcUP "b" 10, mkProcUP "a" 0, mkProcUP "c" 0] := by
    with_unfolding_all decide
  refine ⟨hsort, ?_⟩
  have happ := sentinel_price_sorts_last.2.2.2 sentinelBucket (mkProcUP "a" 0)
    (by decide) (by decide) (by decide)
    (by
      intro p hp
      have hp3 : p = mkProcUP "a" 0 ∨ p = mkProcUP "b" 10 ∨ p = mkProcUP "c" 0 := by
        simpa [sentinelBucket] using hp
      rcases hp3 with rfl | rfl | rfl <;> exact ⟨jsMaxValue, rfl, le_refl _⟩)
    1 2 (by rw [hsort]; decide) (by rw [hsort]; decide)
    (by
      rw [List.get_of_eq hsort]
      rfl)
    (by omega)
  have hj : (sortStable sentinelBucket).get ⟨2, by rw [hsort]; decide⟩ =
      mkProcUP "c" 0 := by
    rw [List.get_of_eq hsort]
    rfl
  rw [hj] at happ
  exact happ

end WhereToBuy
